import Mathlib

/-!
Verification of the response-interpretation pipeline of `game.py`.

This file gives a shallow embedding, in Lean, of the part of `game.py` that
turns a raw text response from the local generation service into the list of
orders submitted to the rules engine, together with the message-validation
core and the legality filter.  The rules engine (`diplomacy.Game`) is an
external collaborator: its two inputs to the pipeline are modelled as
explicit parameters, `locs` (the orderable locations returned by
`game.get_orderable_locations(power)`) and `opts` (the mapping returned by
`game.get_all_possible_orders()`, restricted to a function from a location
to its list of legal order strings).

Embedded functions and their sources:
  * `pyStrip`, `clean`, `splitWs`  — Python `str.strip`, the
    `re.sub` whitespace normalisation at line 521, and `str.split()`;
  * `matchesOrderPattern`          — `re.match(order_pattern, ...)`,
    the regex defined at lines 491-492;
  * `extractFlat`                  — the `_walk` traversal (lines 496-504)
    specialised to a parsed JSON array of strings, the shape the prompt
    demands;
  * `dedupe`, `ordersOf`, `assignedLocs`, `fallbackLocs`, `mkFallback`,
    `get_ollama_orders_post`       — lines 519-531 of `get_ollama_orders`;
  * `legal_orders_for`, `filter_to_legal` — lines 183-193;
  * `toStringOrders`, `safeOrders` — `_to_string_orders` (lines 220-233)
    and the re-filtering done by `main` at lines 566-569;
  * `ollamaCall`, `get_ollama_orders_run` — `_ollama_call` (lines 241-246)
    and the absence of any exception handler around it;
  * `get_ollama_message_core`, `sentMessages` — the validation and send
    steps of `get_ollama_message` (lines 362-386).
-/

/-- Whitespace recognised by Python's `str.split`, `str.strip` and the
regex class `\s`, over the ASCII range used by the pipeline. -/
def isSpace (c : Char) : Bool :=
  c = ' ' || c = '\t' || c = '\n' || c = '\r' || c = '\x0b' || c = '\x0c'

/-- The double-quote character. -/
def quoteD : Char := Char.ofNat 34

/-- The single-quote character. -/
def quoteS : Char := Char.ofNat 39

/-- Strip characters satisfying `p` from both ends of a character list,
as Python `str.strip(chars)` does. -/
def stripChars (p : Char → Bool) (cs : List Char) : List Char :=
  ((cs.dropWhile p).reverse.dropWhile p).reverse

/-- Python `s.strip()`: remove whitespace from both ends. -/
def pyStrip (s : String) : String :=
  String.mk (stripChars isSpace s.data)

/-- Helper for `re.sub` with pattern one-or-more-whitespace and
replacement a single space: the boolean records whether the previous
character was part of a whitespace run already replaced. -/
def collapseWsAux : Bool → List Char → List Char
  | _, [] => []
  | prev, c :: cs =>
    if isSpace c then
      if prev then collapseWsAux true cs
      else ' ' :: collapseWsAux true cs
    else c :: collapseWsAux false cs

/-- Character class stripped at line 521 of `game.py`:
`o.strip('"\' ')` removes double quotes, single quotes and spaces. -/
def isQuoteOrSpace (c : Char) : Bool :=
  c = quoteD || c = quoteS || c = ' '

/-- Line 521 of `game.py`: strip quotes and spaces from both ends, then
collapse every whitespace run to a single space. -/
def clean (o : String) : String :=
  String.mk (collapseWsAux false (stripChars isQuoteOrSpace o.data))

/-- Helper for Python `str.split()` with no arguments: split on runs of
whitespace, producing no empty segments.  The accumulator holds the
characters of the current segment, reversed. -/
def splitWsAux : List Char → List Char → List (List Char)
  | [], acc => if acc = [] then [] else [acc.reverse]
  | c :: cs, acc =>
    if isSpace c then
      if acc = [] then splitWsAux cs []
      else acc.reverse :: splitWsAux cs []
    else splitWsAux cs (c :: acc)

/-- Python `s.split()` with no arguments. -/
def splitWs (s : String) : List String :=
  (splitWsAux s.data []).map String.mk

/-- Line 527 of `game.py`: `o.split()[1]`, the location token of an order
string.  Python raises `IndexError` when there are fewer than two tokens;
orders reaching this point always matched the extraction pattern, which
guarantees at least two, so the total default `""` is never observed. -/
def ordLoc (o : String) : String :=
  (splitWs o).getD 1 ""

/-- A non-empty string with no whitespace: one token of `str.split()`. -/
def isWord (s : String) : Prop :=
  s.data ≠ [] ∧ ∀ c ∈ s.data, isSpace c = false

instance (s : String) : Decidable (isWord s) := by
  unfold isWord; infer_instance

/-- Helper for the duplicate check at lines 522-523 of `game.py`
(`if o not in orders_raw: orders_raw.append(o)`): `seen` is the list of
strings already emitted. -/
def dedupeAux (seen : List String) : List String → List String
  | [] => []
  | x :: xs =>
    if x ∈ seen then dedupeAux seen xs
    else x :: dedupeAux (x :: seen) xs

/-- Lines 519-523 of `game.py` minus the cleaning step: keep the first
occurrence of each string, preserving order. -/
def dedupe (l : List String) : List String :=
  dedupeAux [] l

/-- Lines 183-188 of `game.py` (`legal_orders_for`): the flat collection
of every order the engine considers legal for the power's orderable
locations.  Python builds a set; only membership is ever used, so a
concatenated list is an equivalent embedding. -/
def legal_orders_for (locs : List String) (opts : String → List String) : List String :=
  match locs with
  | [] => []
  | l :: ls => opts l ++ legal_orders_for ls opts

/-- Lines 190-193 of `game.py` (`filter_to_legal`): keep only orders that
appear in the engine-generated legal set. -/
def filter_to_legal (locs : List String) (opts : String → List String)
    (orders : List String) : List String :=
  orders.filter (fun o => decide (o ∈ legal_orders_for locs opts))

/-- Uppercase ASCII letter, the regex class `[A-Z]`. -/
def isUpper (c : Char) : Bool :=
  decide (65 ≤ c.toNat) && decide (c.toNat ≤ 90)

/-- Consume one character satisfying `p`. -/
def chomp (p : Char → Bool) : List Char → Option (List Char)
  | [] => none
  | c :: cs => if p c then some cs else none

/-- The regex fragment one-or-more-whitespace (`\s+`), matched greedily;
every character class that follows it in the order pattern is disjoint
from whitespace, so greedy matching loses no matches. -/
def chompSpaces (cs : List Char) : Option (List Char) :=
  match cs with
  | [] => none
  | c :: rest => if isSpace c then some (rest.dropWhile isSpace) else none

/-- The regex fragment `[A-Z]` repeated exactly three times. -/
def chompUpper3 (cs : List Char) : Option (List Char) :=
  ((chomp isUpper cs).bind (chomp isUpper)).bind (chomp isUpper)

/-- First alternative of the verb-body group at lines 491-492 of
`game.py`: optional whitespace, a dash, optional whitespace, and a
three-uppercase-letter location. -/
def altMove (cs : List Char) : Bool :=
  ((((chomp (fun c => c = '-') (cs.dropWhile isSpace)).map
      (fun r => r.dropWhile isSpace)).bind chompUpper3)).isSome

/-- Second alternative: whitespace then a single letter among
`H`, `S`, `R`, `D`, `C`.  Matching is a prefix test, so full support,
convoy and retreat bodies are accepted through this alternative. -/
def altVerb (cs : List Char) : Bool :=
  ((chompSpaces cs).bind
    (chomp (fun c => c = 'H' || c = 'S' || c = 'R' || c = 'D' || c = 'C'))).isSome

/-- Third alternative: a support body
(whitespace, `S`, whitespace, `A` or `F`, whitespace, location); the
optional move tail of the regex can match the empty string and therefore
never affects acceptance. -/
def altSupport (cs : List Char) : Bool :=
  (((((chompSpaces cs).bind (chomp (fun c => c = 'S'))).bind
      chompSpaces).bind (chomp (fun c => c = 'A' || c = 'F'))).bind
      chompSpaces).bind chompUpper3 |>.isSome

/-- The optional leading quote `["\']?` of the order pattern.  The quote
characters are disjoint from `A` and `F`, so the greedy optional match
needs no backtracking. -/
def dropOptQuote : List Char → List Char
  | [] => []
  | c :: rest => if c = quoteD || c = quoteS then rest else c :: rest

/-- Lines 491-492 of `game.py`: `re.match(order_pattern, s)` viewed as a
boolean acceptance test.  `re.match` anchors at the start only, so this
is a prefix match; the trailing `["\']?` of the pattern can match the
empty string and never affects acceptance. -/
def matchesOrderPattern (s : String) : Bool :=
  match ((chomp (fun c => c = 'A' || c = 'F') (dropOptQuote s.data)).bind
      chompSpaces).bind chompUpper3 with
  | none => false
  | some rest => altMove rest || altVerb rest || altSupport rest

/-- The `_walk` traversal at lines 496-504 of `game.py`, specialised to a
parsed JSON array of strings (the shape the prompt demands): each element
is stripped and kept when it matches the order pattern. -/
def extractFlat (items : List String) : List String :=
  (items.map pyStrip).filter matchesOrderPattern

/-- Lines 519-525 of `game.py`: clean every extracted candidate, drop
exact duplicates keeping first occurrences, then keep only engine-legal
orders. -/
def ordersOf (extracted locs : List String) (opts : String → List String) : List String :=
  filter_to_legal locs opts (dedupe (extracted.map clean))

/-- Line 527 of `game.py`: the set of second tokens of the accepted
orders (`{o.split()[1] for o in orders}`), kept as a list, membership
being the only use. -/
def assignedLocs (orders : List String) : List String :=
  orders.map ordLoc

/-- Line 530 of `game.py`: `all_opts[loc][0].split()[0]`, the unit type
of the first legal order for a location. -/
def unitTypeOf (opts : String → List String) (loc : String) : String :=
  (splitWs ((opts loc).getD 0 "")).getD 0 ""

/-- Line 531 of `game.py`: the synthesized fallback string
`f"{unit_type} {loc} H"`. -/
def mkFallback (opts : String → List String) (loc : String) : String :=
  unitTypeOf opts loc ++ " " ++ loc ++ " H"

/-- Lines 528-529 of `game.py`: the orderable locations that received no
accepted order and therefore get a synthesized fallback. -/
def fallbackLocs (extracted locs : List String) (opts : String → List String) : List String :=
  locs.filter (fun loc => !decide (loc ∈ assignedLocs (ordersOf extracted locs opts)))

/-- Lines 519-531 of `get_ollama_orders`: the accepted orders followed by
one synthesized fallback for each unassigned orderable location, in
location order. -/
def get_ollama_orders_post (extracted locs : List String)
    (opts : String → List String) : List String :=
  ordersOf extracted locs opts ++ (fallbackLocs extracted locs opts).map (mkFallback opts)

/-- One element of the raw list handed to `_to_string_orders`
(lines 220-233 of `game.py`): a string, a unit-to-action object, or any
other JSON value, which is ignored. -/
inductive PyItem where
  | pstr (s : String)
  | pdict (entries : List (String × String))
  | pother

/-- Lines 220-233 of `game.py` (`_to_string_orders`): flatten strings and
unit-to-action objects to stripped order strings; other items are
ignored. -/
def toStringOrders : List PyItem → List String
  | [] => []
  | PyItem.pstr s :: rest => pyStrip s :: toStringOrders rest
  | PyItem.pdict entries :: rest =>
      entries.map (fun p => pyStrip (p.1 ++ " " ++ p.2)) ++ toStringOrders rest
  | PyItem.pother :: rest => toStringOrders rest

/-- Lines 566-569 of `main`: the orders actually submitted to the engine,
after re-stringifying and re-filtering the pipeline output. -/
def safeOrders (extracted locs : List String) (opts : String → List String) : List String :=
  filter_to_legal locs opts
    (toStringOrders ((get_ollama_orders_post extracted locs opts).map PyItem.pstr))

/-- Outcome of the blocking POST in `_ollama_call` (lines 241-246 of
`game.py`): either an HTTP response with a status code and a decoded
`response` field, or a transport error / timeout raised by `requests`. -/
inductive HttpOutcome where
  | success (status : Nat) (response : String)
  | transportError

/-- The exception message used to model a `requests` transport error or
timeout. -/
def transportErrorMsg : String := "transport error or timeout"

/-- Lines 241-246 of `game.py` (`_ollama_call`): a transport error
surfaces as a raised exception, and `raise_for_status` raises on any
status of 400 or above; both are modelled with `Except.error`.  The
function has no exception handler. -/
def ollamaCall (outcome : HttpOutcome) : Except String String :=
  match outcome with
  | HttpOutcome.transportError => Except.error transportErrorMsg
  | HttpOutcome.success status response =>
      if 400 ≤ status then Except.error "HTTPError" else Except.ok response

/-- The call structure of `get_ollama_orders` (lines 438-541) around the
generation request: an empty orderable-location list returns before the
request; otherwise the raw response is obtained through `ollamaCall` and
fed to the deterministic extraction stage (abstracted here as `extract`,
lines 489-517) and then the validated-order construction.  No exception
handler exists anywhere on this path, so an `Except.error` from
`ollamaCall` propagates. -/
def get_ollama_orders_run (outcome : HttpOutcome) (extract : String → List String)
    (locs : List String) (opts : String → List String) : Except String (List String) :=
  if locs.isEmpty then Except.ok []
  else (ollamaCall outcome).map (fun raw => get_ollama_orders_post (extract raw) locs opts)

/-- The powers of the standard map, the keys of `MODEL_BY_POWER`
(lines 17-25 of `game.py`) and the members of `game.powers`. -/
def knownPowers : List String :=
  ["AUSTRIA", "ENGLAND", "FRANCE", "GERMANY", "ITALY", "RUSSIA", "TURKEY"]

/-- Line 260 of `game.py`: the participants other than the sender. -/
def otherPowers (sender : String) : List String :=
  knownPowers.filter (fun p => decide (p ≠ sender))

/-- Lines 362-366 of `game.py` (`get_ollama_message`): the validation
core.  `recipients` and `message` carry the values of
`result.get("recipients", [])` and `result.get("message", "")`, so an
absent field arrives as the default.  The Python sentinel for a rejected
message is the empty-string return; it is modelled as `none`. -/
def get_ollama_message_core (recipients : List String) (message : String) :
    Option (List String × String) :=
  let msg := pyStrip message
  if recipients = [] ∨ msg = "" then none
  else some (recipients, msg)

/-- Lines 378-386 of `game.py`: one engine message per listed recipient,
each carrying the validated body; nothing is sent for a rejected
message. -/
def sentMessages : Option (List String × String) → List (String × String)
  | none => []
  | some (rs, m) => rs.map (fun r => (r, m))

/-- Legal options of a movement-phase location `PAR` with two entries,
as `game.get_all_possible_orders()` supplies them. -/
def optsH : String → List String := fun loc =>
  if loc = "PAR" then ["A PAR H", "A PAR - BUR"] else []

/-- Legal options of a retreat-phase location `PAR`: retreats and a
disband, no hold. -/
def optsR : String → List String := fun loc =>
  if loc = "PAR" then ["A PAR D", "A PAR R BUR"] else []

/-- Declarative description of the move alternative of the order
pattern's verb-body group: optional whitespace, a dash, optional
whitespace, and a three-uppercase-letter destination, followed by
anything (the match is a prefix test, so a coast suffix on the
destination is admitted as trailing text). -/
def BodyMove (body : List Char) : Prop :=
  ∃ (w1 w2 : List Char) (m1 m2 m3 : Char) (tail : List Char),
    (∀ c ∈ w1, isSpace c = true) ∧ (∀ c ∈ w2, isSpace c = true) ∧
    isUpper m1 = true ∧ isUpper m2 = true ∧ isUpper m3 = true ∧
    body = w1 ++ '-' :: (w2 ++ m1 :: m2 :: m3 :: tail)

/-- Declarative description of the single-letter verb alternative of the
order pattern's verb-body group: whitespace, then one uppercase letter
among `H`, `S`, `R`, `D`, `C`, followed by anything — which is how full
hold, support, convoy, retreat and disband bodies are admitted. -/
def BodyVerb (body : List Char) : Prop :=
  ∃ (w : List Char) (v : Char) (tail : List Char),
    w ≠ [] ∧ (∀ c ∈ w, isSpace c = true) ∧
    (v = 'H' ∨ v = 'S' ∨ v = 'R' ∨ v = 'D' ∨ v = 'C') ∧
    body = w ++ v :: tail

/-- Declarative description of exactly the candidate strings the order
pattern accepts: an optional leading quote, the unit type `A` or `F`
(case-sensitively), whitespace, an exactly-three-uppercase-letter
location with no coast suffix, and a move or verb-letter body.  No build
verb and no lowercase keyword fits this shape.  The theorem for claim C7
proves this predicate equivalent to `matchesOrderPattern`. -/
def OrderCandidate (s : String) : Prop :=
  ∃ (u : Char) (w : List Char) (l1 l2 l3 : Char) (body : List Char),
    (u = 'A' ∨ u = 'F') ∧
    w ≠ [] ∧ (∀ c ∈ w, isSpace c = true) ∧
    isUpper l1 = true ∧ isUpper l2 = true ∧ isUpper l3 = true ∧
    (BodyMove body ∨ BodyVerb body) ∧
    (s.data = u :: (w ++ l1 :: l2 :: l3 :: body) ∨
      ∃ q : Char, (q = quoteD ∨ q = quoteS) ∧
        s.data = q :: u :: (w ++ l1 :: l2 :: l3 :: body))

/-- Lexicographic comparison of character lists by code point, the
order Python string comparison uses on ASCII order strings. -/
def charListLe : List Char → List Char → Bool
  | [], _ => true
  | _ :: _, [] => false
  | a :: as, b :: bs =>
    if a = b then charListLe as bs else decide (a.toNat < b.toNat)

/-- Modelled from the spec: the "lexicographically-first entry of
`LegalActionSet[location]`" that section 4.5 mandates as the fallback
when no hold action is legal.  `game.py` itself never computes this; the
definition exists only to compare the mandated policy with the code's
behaviour. -/
def lexFirst : List String → String
  | [] => ""
  | x :: xs => List.foldl (fun a b => if charListLe a.data b.data then a else b) x xs

/-! ### Helper lemmas -/

theorem string_mk_data (s : String) : String.mk s.data = s := rfl

theorem string_data_append (a b : String) : (a ++ b).data = a.data ++ b.data := rfl

theorem mem_legal_orders_for (o : String) (locs : List String)
    (opts : String → List String) :
    o ∈ legal_orders_for locs opts ↔ ∃ loc ∈ locs, o ∈ opts loc := by
  induction locs with
  | nil => simp [legal_orders_for]
  | cons l ls ih => simp [legal_orders_for, ih, List.mem_append, or_and_right, exists_or]

theorem mem_filter_to_legal (o : String) (locs : List String)
    (opts : String → List String) (orders : List String) :
    o ∈ filter_to_legal locs opts orders ↔
      o ∈ orders ∧ o ∈ legal_orders_for locs opts := by
  simp [filter_to_legal, List.mem_filter]

theorem mem_dedupeAux (x : String) (l : List String) :
    ∀ seen : List String, x ∈ dedupeAux seen l ↔ x ∈ l ∧ x ∉ seen := by
  induction l with
  | nil => intro seen; simp [dedupeAux]
  | cons a l ih =>
    intro seen
    by_cases ha : a ∈ seen
    · have hred : dedupeAux seen (a :: l) = dedupeAux seen l := by
        simp [dedupeAux, ha]
      rw [hred, ih seen]
      constructor
      · rintro ⟨hx, hs⟩
        exact ⟨List.mem_cons_of_mem a hx, hs⟩
      · rintro ⟨hx, hs⟩
        rcases List.mem_cons.mp hx with rfl | hx
        · exact absurd ha hs
        · exact ⟨hx, hs⟩
    · have hred : dedupeAux seen (a :: l) = a :: dedupeAux (a :: seen) l := by
        simp [dedupeAux, ha]
      rw [hred]
      constructor
      · intro hx
        rcases List.mem_cons.mp hx with rfl | hx
        · exact ⟨List.mem_cons_self x l, ha⟩
        · obtain ⟨h1, h2⟩ := (ih (a :: seen)).mp hx
          exact ⟨List.mem_cons_of_mem a h1, fun hs => h2 (List.mem_cons_of_mem a hs)⟩
      · rintro ⟨hx, hs⟩
        rcases List.mem_cons.mp hx with rfl | hx
        · exact List.mem_cons_self x _
        · by_cases hxa : x = a
          · rw [hxa]; exact List.mem_cons_self a _
          · refine List.mem_cons_of_mem a ((ih (a :: seen)).mpr ⟨hx, ?_⟩)
            intro hmem
            rcases List.mem_cons.mp hmem with h | h
            · exact hxa h
            · exact hs h

theorem mem_dedupe (x : String) (l : List String) :
    x ∈ dedupe l ↔ x ∈ l := by
  simp [dedupe, mem_dedupeAux]

theorem nodup_dedupeAux (l : List String) :
    ∀ seen : List String, (dedupeAux seen l).Nodup := by
  induction l with
  | nil => intro seen; simp [dedupeAux]
  | cons a l ih =>
    intro seen
    by_cases ha : a ∈ seen
    · have hred : dedupeAux seen (a :: l) = dedupeAux seen l := by
        simp [dedupeAux, ha]
      rw [hred]; exact ih seen
    · have hred : dedupeAux seen (a :: l) = a :: dedupeAux (a :: seen) l := by
        simp [dedupeAux, ha]
      rw [hred]
      refine List.nodup_cons.mpr ⟨?_, ih (a :: seen)⟩
      intro hmem
      have := (mem_dedupeAux a l (a :: seen)).mp hmem
      exact this.2 (List.mem_cons_self a seen)

theorem nodup_dedupe (l : List String) : (dedupe l).Nodup :=
  nodup_dedupeAux l []

theorem filter_idem {α : Type} (p : α → Bool) (l : List α) :
    (l.filter p).filter p = l.filter p := by
  induction l with
  | nil => rfl
  | cons a l ih => cases h : p a <;> simp [List.filter_cons, h, ih]

theorem splitWsAux_word_space (w : List Char) (rest : List Char)
    (hw : ∀ c ∈ w, isSpace c = false) :
    ∀ acc : List Char, acc.reverse ++ w ≠ [] →
      splitWsAux (w ++ ' ' :: rest) acc = (acc.reverse ++ w) :: splitWsAux rest [] := by
  induction w with
  | nil =>
    intro acc hne
    have hacc : acc ≠ [] := by
      intro h; subst h; exact hne rfl
    simp [splitWsAux, isSpace, hacc]
  | cons c w ih =>
    intro acc _
    have hc : isSpace c = false := hw c (List.mem_cons_self c w)
    have hw' : ∀ d ∈ w, isSpace d = false := fun d hd => hw d (List.mem_cons_of_mem c hd)
    have hne' : (c :: acc).reverse ++ w ≠ [] := by simp
    calc splitWsAux ((c :: w) ++ ' ' :: rest) acc
        = splitWsAux (w ++ ' ' :: rest) (c :: acc) := by
          simp [splitWsAux, hc]
      _ = ((c :: acc).reverse ++ w) :: splitWsAux rest [] := ih hw' (c :: acc) hne'
      _ = (acc.reverse ++ c :: w) :: splitWsAux rest [] := by
          simp [List.reverse_cons, List.append_assoc]

theorem splitWs_fallback (u loc : String) (hu : isWord u) (hl : isWord loc) :
    splitWs (u ++ " " ++ loc ++ " H") = [u, loc, "H"] := by
  have hdata : (u ++ " " ++ loc ++ " H").data
      = u.data ++ ' ' :: (loc.data ++ ' ' :: ['H']) := by
    simp [string_data_append, show (" " : String).data = [' '] from rfl,
      show (" H" : String).data = [' ', 'H'] from rfl, List.append_assoc]
  unfold splitWs
  rw [hdata]
  rw [splitWsAux_word_space u.data (loc.data ++ ' ' :: ['H']) hu.2 []
      (by simpa using hu.1)]
  rw [splitWsAux_word_space loc.data ['H'] hl.2 [] (by simpa using hl.1)]
  simp [splitWsAux, show isSpace 'H' = false from rfl, string_mk_data]

theorem ordLoc_fallback (u loc : String) (hu : isWord u) (hl : isWord loc) :
    ordLoc (u ++ " " ++ loc ++ " H") = loc := by
  unfold ordLoc
  rw [splitWs_fallback u loc hu hl]
  rfl

theorem mem_assignedLocs (loc : String) (orders : List String) :
    loc ∈ assignedLocs orders ↔ ∃ o ∈ orders, ordLoc o = loc := by
  simp [assignedLocs]

/-! ### Claim C1 -/

/-- C1 counterexample: with one orderable location `PAR` and both
`"A PAR H"` and `"A PAR - BUR"` extracted and legal, the pipeline keeps
both, so the output has two entries for one orderable location: its
cardinality is 2, not 1, and the location `PAR` appears twice, refuting
the exactly-one-action-per-location invariant as stated. -/
theorem C1_counterexample_duplicate_location :
    (get_ollama_orders_post (extractFlat ["A PAR H", "A PAR - BUR"]) ["PAR"] optsH).length = 2 ∧
    (["PAR"] : List String).length = 1 ∧
    assignedLocs (get_ollama_orders_post (extractFlat ["A PAR H", "A PAR - BUR"]) ["PAR"] optsH)
      = ["PAR", "PAR"] := by
  decide

/-- C1 (amended): for every phase and power, every orderable location is
assigned at least one action by the pipeline — its location appears as
the location token of some output order, either an accepted candidate or
the synthesized fallback — but a location with several distinct accepted
candidates receives all of them, so the output's cardinality can exceed
the number of orderable locations.  The hypotheses state that location
identifiers and unit types are single non-empty whitespace-free tokens,
as the rules engine supplies them. -/
theorem C1_amended_every_location_assigned (extracted locs : List String)
    (opts : String → List String)
    (hloc : ∀ loc ∈ locs, isWord loc)
    (hunit : ∀ loc ∈ locs, isWord (unitTypeOf opts loc)) :
    ∀ loc ∈ locs, ∃ o ∈ get_ollama_orders_post extracted locs opts, ordLoc o = loc := by
  intro loc hmem
  by_cases h : loc ∈ assignedLocs (ordersOf extracted locs opts)
  · obtain ⟨o, ho, hol⟩ := (mem_assignedLocs loc _).mp h
    exact ⟨o, List.mem_append_left _ ho, hol⟩
  · refine ⟨mkFallback opts loc, ?_, ?_⟩
    · refine List.mem_append_right _ ?_
      refine List.mem_map_of_mem (mkFallback opts) ?_
      simp [fallbackLocs, List.mem_filter, hmem, h]
    · exact ordLoc_fallback (unitTypeOf opts loc) loc (hunit loc hmem) (hloc loc hmem)

/-- Witness for the amended C1 theorem at a concrete movement-phase
input with no extracted candidates. -/
theorem C1_amended_witness :
    ∃ o ∈ get_ollama_orders_post [] ["PAR"] optsH, ordLoc o = "PAR" :=
  C1_amended_every_location_assigned [] ["PAR"] optsH (by decide) (by decide) "PAR" (by decide)

/-! ### Claim C2 -/

/-- C2 counterexample: in a retreat-phase situation where the legal
actions for `PAR` are `"A PAR D"` and `"A PAR R BUR"`, the pipeline
assigns `PAR` the synthesized fallback `"A PAR H"`, which is not a member
of the legal-action sequence for `PAR`. -/
theorem C2_counterexample_illegal_fallback :
    get_ollama_orders_post [] ["PAR"] optsR = ["A PAR H"] ∧
    "A PAR H" ∉ optsR "PAR" := by
  decide

/-- C2 (amended): every legality-accepted (non-fallback) action the
pipeline assigns is a member of the legal-action sequence of some
orderable location, and every order `main` actually submits after its
second `filter_to_legal` pass is likewise legal; but the synthesized
fallback need not be legal (see the counterexample), and in that case
`main`'s re-filtering removes it, leaving the location with no submitted
action, as the last conjunct shows on the retreat-phase input. -/
theorem C2_amended_filtered_orders_legal (extracted locs : List String)
    (opts : String → List String) :
    (∀ o ∈ ordersOf extracted locs opts, ∃ loc ∈ locs, o ∈ opts loc) ∧
    (∀ o ∈ safeOrders extracted locs opts, ∃ loc ∈ locs, o ∈ opts loc) ∧
    safeOrders [] ["PAR"] optsR = [] := by
  refine ⟨?_, ?_, by decide⟩
  · intro o ho
    unfold ordersOf at ho
    have := (mem_filter_to_legal o locs opts _).mp ho
    exact (mem_legal_orders_for o locs opts).mp this.2
  · intro o ho
    unfold safeOrders at ho
    have := (mem_filter_to_legal o locs opts _).mp ho
    exact (mem_legal_orders_for o locs opts).mp this.2

/-- Witness for the amended C2 theorem: the accepted candidate
`"A PAR H"` is legal for the orderable location `PAR`. -/
theorem C2_amended_witness :
    ∃ loc ∈ (["PAR"] : List String), "A PAR H" ∈ optsH loc :=
  (C2_amended_filtered_orders_legal (extractFlat ["A PAR H"]) ["PAR"] optsH).1
    "A PAR H" (by decide)

/-! ### Claim C3 -/

/-- C3 counterexample: in a retreat-phase situation with legal actions
`"A PAR D"` and `"A PAR R BUR"` for `PAR` (so no hold action is legal and
the lexicographically-first entry is `"A PAR D"`), the pipeline's
fallback is the synthesized `"A PAR H"` — not a member of the legal set
and not the lexicographically-first entry. -/
theorem C3_counterexample_fallback_not_lex_first :
    get_ollama_orders_post [] ["PAR"] optsR = ["A PAR H"] ∧
    "A PAR H" ∉ optsR "PAR" ∧
    lexFirst (optsR "PAR") = "A PAR D" ∧
    mkFallback optsR "PAR" ≠ lexFirst (optsR "PAR") := by
  decide

/-- C3 (amended): for every orderable location with zero
legality-accepted candidates, the pipeline synthesizes and appends the
string formed of the unit type of the location's first legal entry, the
location, and `H` — unconditionally, whether or not that hold string is
itself legal; it never selects the lexicographically-first legal
entry. -/
theorem C3_amended_fallback_is_synthesized_hold (extracted locs : List String)
    (opts : String → List String) (loc : String)
    (hmem : loc ∈ locs)
    (hno : loc ∉ assignedLocs (ordersOf extracted locs opts)) :
    mkFallback opts loc ∈ get_ollama_orders_post extracted locs opts ∧
    mkFallback opts loc = unitTypeOf opts loc ++ " " ++ loc ++ " H" := by
  constructor
  · refine List.mem_append_right _ ?_
    refine List.mem_map_of_mem (mkFallback opts) ?_
    simp [fallbackLocs, List.mem_filter, hmem, hno]
  · rfl

/-- Witness for the amended C3 theorem at the concrete retreat-phase
input. -/
theorem C3_amended_witness :
    mkFallback optsR "PAR" ∈ get_ollama_orders_post [] ["PAR"] optsR ∧
    mkFallback optsR "PAR" = unitTypeOf optsR "PAR" ++ " " ++ "PAR" ++ " H" :=
  C3_amended_fallback_is_synthesized_hold [] ["PAR"] optsR "PAR" (by decide) (by decide)

/-! ### Claim C4 -/

/-- C4 counterexample: with `"A PAR H"` appearing first and
`"A PAR - BUR"` second, both legal for the single orderable location
`PAR`, the pipeline keeps both orders — the later accepted candidate for
the same location is not discarded. -/
theorem C4_counterexample_later_candidate_kept :
    get_ollama_orders_post (extractFlat ["A PAR H", "A PAR - BUR"]) ["PAR"] optsH
      = ["A PAR H", "A PAR - BUR"] ∧
    "A PAR - BUR" ∈
      get_ollama_orders_post (extractFlat ["A PAR H", "A PAR - BUR"]) ["PAR"] optsH ∧
    ordLoc "A PAR - BUR" = ordLoc "A PAR H" := by
  decide

/-- C4 (amended): deduplication acts on exact candidate strings only —
the accepted order list is duplicate-free as a list of strings, and every
extracted candidate whose canonical form is legal is kept in it; distinct
accepted candidates targeting the same location are therefore all kept,
not reduced to the first. -/
theorem C4_amended_only_exact_duplicates_discarded (extracted locs : List String)
    (opts : String → List String) :
    (ordersOf extracted locs opts).Nodup ∧
    ∀ x ∈ extracted, clean x ∈ legal_orders_for locs opts →
      clean x ∈ ordersOf extracted locs opts := by
  constructor
  · unfold ordersOf filter_to_legal
    exact (nodup_dedupe _).filter _
  · intro x hx hleg
    unfold ordersOf
    rw [mem_filter_to_legal]
    exact ⟨(mem_dedupe _ _).mpr (List.mem_map_of_mem clean hx), hleg⟩

/-- Witness for the amended C4 theorem: the second legal candidate for
`PAR` is kept in the accepted order list. -/
theorem C4_amended_witness :
    clean "A PAR - BUR" ∈ ordersOf ["A PAR H", "A PAR - BUR"] ["PAR"] optsH :=
  (C4_amended_only_exact_duplicates_discarded ["A PAR H", "A PAR - BUR"] ["PAR"] optsH).2
    "A PAR - BUR" (by decide) (by decide)

/-! ### Claim C5 -/

/-- C5 counterexample: a transport error from the generation service
makes the order pipeline return the propagated exception, not the
full-fallback order list (`["A PAR H"]` here) that an empty unparseable
response would produce. -/
theorem C5_counterexample_transport_error_propagates :
    get_ollama_orders_run HttpOutcome.transportError (fun _ => []) ["PAR"] optsH
      = Except.error transportErrorMsg ∧
    (Except.error transportErrorMsg : Except String (List String))
      ≠ Except.ok (get_ollama_orders_post [] ["PAR"] optsH) :=
  ⟨rfl, fun h => Except.noConfusion h⟩

/-- C5 (amended): whenever the power has at least one orderable location
the generation request is issued, and a transport error or timeout
propagates uncaught out of the order-interpretation pipeline — there is
no handler in `_ollama_call`, `run_ollama`, `get_ollama_orders` or
`main` — so no fallback orders are produced for that power and the phase
loop aborts. -/
theorem C5_amended_error_propagates_uncaught (extract : String → List String)
    (locs : List String) (opts : String → List String) (h : locs ≠ []) :
    get_ollama_orders_run HttpOutcome.transportError extract locs opts
      = Except.error transportErrorMsg := by
  cases locs with
  | nil => exact absurd rfl h
  | cons a l => rfl

/-- Witness for the amended C5 theorem at a concrete one-location
input. -/
theorem C5_amended_witness :
    get_ollama_orders_run HttpOutcome.transportError (fun _ => []) ["PAR"] optsH
      = Except.error transportErrorMsg :=
  C5_amended_error_propagates_uncaught (fun _ => []) ["PAR"] optsH (by decide)

/-! ### Claim C6 -/

/-- C6: the order-interpretation pipeline is a deterministic function of
the response items and the legal-action mapping: running it twice on
identical input yields identical order lists and identical fallback
location lists.  The embedded pipeline reads nothing but its arguments —
the source lines it embeds (519-531 plus the extraction walk) use no
randomness and no mutable ambient state (`random.shuffle` in `main`
touches only the messaging turn order). -/
theorem C6_pipeline_deterministic (items1 items2 locs : List String)
    (opts : String → List String) (h : items1 = items2) :
    get_ollama_orders_post (extractFlat items1) locs opts
      = get_ollama_orders_post (extractFlat items2) locs opts ∧
    fallbackLocs (extractFlat items1) locs opts
      = fallbackLocs (extractFlat items2) locs opts := by
  subst h
  exact ⟨rfl, rfl⟩

/-- Witness for the C6 theorem at a concrete input. -/
theorem C6_pipeline_deterministic_witness :
    get_ollama_orders_post (extractFlat ["A PAR H"]) ["PAR"] optsH
      = get_ollama_orders_post (extractFlat ["A PAR H"]) ["PAR"] optsH ∧
    fallbackLocs (extractFlat ["A PAR H"]) ["PAR"] optsH
      = fallbackLocs (extractFlat ["A PAR H"]) ["PAR"] optsH :=
  C6_pipeline_deterministic ["A PAR H"] ["A PAR H"] ["PAR"] optsH rfl

/-! ### Matcher characterization lemmas for claim C7 -/

theorem isUpper_not_space (c : Char) (h : isUpper c = true) : isSpace c = false := by
  cases hs : isSpace c with
  | false => rfl
  | true =>
    exfalso
    simp only [isSpace, Bool.or_eq_true, decide_eq_true_eq] at hs
    rcases hs with ((((rfl | rfl) | rfl) | rfl) | rfl) | rfl <;> exact absurd h (by decide)

theorem chomp_some (p : Char → Bool) (cs rest : List Char) (h : chomp p cs = some rest) :
    ∃ c, cs = c :: rest ∧ p c = true := by
  cases cs with
  | nil => exact absurd h (by simp [chomp])
  | cons c cs' =>
    by_cases hp : p c = true
    · refine ⟨c, ?_, hp⟩
      have heq : some cs' = some rest := by rw [← h]; simp [chomp, hp]
      rw [Option.some_inj.mp heq]
    · exfalso
      have heq : chomp p (c :: cs') = none := by simp [chomp, hp]
      rw [heq] at h
      exact Option.noConfusion h

theorem chompSpaces_some (cs rest : List Char) (h : chompSpaces cs = some rest) :
    ∃ w, w ≠ [] ∧ (∀ c ∈ w, isSpace c = true) ∧ cs = w ++ rest := by
  cases cs with
  | nil => exact absurd h (by simp [chompSpaces])
  | cons c cs' =>
    by_cases hc : isSpace c = true
    · have hrest : cs'.dropWhile isSpace = rest := by
        have heq : chompSpaces (c :: cs') = some (cs'.dropWhile isSpace) := by
          simp [chompSpaces, hc]
        rw [heq] at h
        exact Option.some_inj.mp h
      refine ⟨c :: cs'.takeWhile isSpace, by simp, ?_, ?_⟩
      · intro d hd
        rcases List.mem_cons.mp hd with rfl | hd
        · exact hc
        · exact List.mem_takeWhile_imp hd
      · rw [List.cons_append]
        rw [← hrest]
        rw [List.takeWhile_append_dropWhile]
    · exfalso
      have heq : chompSpaces (c :: cs') = none := by simp [chompSpaces, hc]
      rw [heq] at h
      exact Option.noConfusion h

theorem chompUpper3_some (cs rest : List Char) (h : chompUpper3 cs = some rest) :
    ∃ l1 l2 l3, isUpper l1 = true ∧ isUpper l2 = true ∧ isUpper l3 = true ∧
      cs = l1 :: l2 :: l3 :: rest := by
  unfold chompUpper3 at h
  obtain ⟨r2, h2, h3⟩ := Option.bind_eq_some.mp h
  obtain ⟨r1, h1, h2'⟩ := Option.bind_eq_some.mp h2
  obtain ⟨l1, hcs, hl1⟩ := chomp_some _ _ _ h1
  obtain ⟨l2, hr1, hl2⟩ := chomp_some _ _ _ h2'
  obtain ⟨l3, hr2, hl3⟩ := chomp_some _ _ _ h3
  exact ⟨l1, l2, l3, hl1, hl2, hl3, by rw [hcs, hr1, hr2]⟩

theorem dropWhile_space_decomp (cs rest : List Char) (h : cs.dropWhile isSpace = rest) :
    ∃ w, (∀ c ∈ w, isSpace c = true) ∧ cs = w ++ rest := by
  refine ⟨cs.takeWhile isSpace, ?_, ?_⟩
  · intro c hc
    exact List.mem_takeWhile_imp hc
  · rw [← h, List.takeWhile_append_dropWhile]

theorem dropWhile_space_append_cons (w : List Char) (a : Char) (rest : List Char)
    (hw : ∀ c ∈ w, isSpace c = true) (ha : isSpace a = false) :
    (w ++ a :: rest).dropWhile isSpace = a :: rest := by
  induction w with
  | nil => simp [List.dropWhile_cons, ha]
  | cons c w' ih =>
    have hc := hw c (List.mem_cons_self c w')
    simp [List.dropWhile_cons, hc,
      ih (fun d hd => hw d (List.mem_cons_of_mem c hd))]

theorem chompSpaces_append_cons (w : List Char) (a : Char) (rest : List Char)
    (hne : w ≠ []) (hw : ∀ c ∈ w, isSpace c = true) (ha : isSpace a = false) :
    chompSpaces (w ++ a :: rest) = some (a :: rest) := by
  cases w with
  | nil => exact absurd rfl hne
  | cons c w' =>
    have hc := hw c (List.mem_cons_self c w')
    rw [List.cons_append]
    simp only [chompSpaces, hc, if_true]
    rw [dropWhile_space_append_cons w' a rest
      (fun d hd => hw d (List.mem_cons_of_mem c hd)) ha]

theorem bodyMove_of_altMove (cs : List Char) (h : altMove cs = true) : BodyMove cs := by
  unfold altMove at h
  rw [Option.isSome_iff_exists] at h
  obtain ⟨tail, htail⟩ := h
  obtain ⟨r5, hmap, hup⟩ := Option.bind_eq_some.mp htail
  obtain ⟨r4, hchomp, hr5⟩ := Option.map_eq_some'.mp hmap
  obtain ⟨d, hdrop, hd⟩ := chomp_some _ _ _ hchomp
  have hdash : d = '-' := of_decide_eq_true hd
  obtain ⟨w1, hw1, hcs⟩ := dropWhile_space_decomp cs _ hdrop
  obtain ⟨m1, m2, m3, hm1, hm2, hm3, hr5'⟩ := chompUpper3_some _ _ hup
  obtain ⟨w2, hw2, hr4⟩ := dropWhile_space_decomp r4 _ hr5
  refine ⟨w1, w2, m1, m2, m3, tail, hw1, hw2, hm1, hm2, hm3, ?_⟩
  rw [hcs, hdash, hr4, hr5']

theorem bodyVerb_of_altVerb (cs : List Char) (h : altVerb cs = true) : BodyVerb cs := by
  unfold altVerb at h
  rw [Option.isSome_iff_exists] at h
  obtain ⟨tail, htail⟩ := h
  obtain ⟨r4, hsp, hchomp⟩ := Option.bind_eq_some.mp htail
  obtain ⟨w, hwne, hw, hcs⟩ := chompSpaces_some _ _ hsp
  obtain ⟨v, hr4, hv⟩ := chomp_some _ _ _ hchomp
  refine ⟨w, v, tail, hwne, hw, ?_, by rw [hcs, hr4]⟩
  have hv' : (((v = 'H' ∨ v = 'S') ∨ v = 'R') ∨ v = 'D') ∨ v = 'C' := by
    simpa using hv
  tauto

theorem altVerb_of_altSupport (cs : List Char) (h : altSupport cs = true) :
    altVerb cs = true := by
  unfold altSupport at h
  rw [Option.isSome_iff_exists] at h
  obtain ⟨t, ht⟩ := h
  obtain ⟨a5, h5, _⟩ := Option.bind_eq_some.mp ht
  obtain ⟨a4, h4, _⟩ := Option.bind_eq_some.mp h5
  obtain ⟨a3, h3, _⟩ := Option.bind_eq_some.mp h4
  obtain ⟨a2, h2, _⟩ := Option.bind_eq_some.mp h3
  obtain ⟨a1, h1, hS⟩ := Option.bind_eq_some.mp h2
  obtain ⟨v, ha1, hv⟩ := chomp_some _ _ _ hS
  have hvS : v = 'S' := of_decide_eq_true hv
  subst hvS
  unfold altVerb
  rw [h1, Option.some_bind, ha1]
  rfl

theorem altMove_of_bodyMove (cs : List Char) (h : BodyMove cs) : altMove cs = true := by
  obtain ⟨w1, w2, m1, m2, m3, tail, hw1, hw2, hm1, hm2, hm3, hcs⟩ := h
  unfold altMove
  rw [hcs]
  rw [dropWhile_space_append_cons w1 '-' _ hw1 (by decide)]
  rw [show chomp (fun c => c = '-') ('-' :: (w2 ++ m1 :: m2 :: m3 :: tail))
      = some (w2 ++ m1 :: m2 :: m3 :: tail) from rfl]
  rw [Option.map_some']
  rw [dropWhile_space_append_cons w2 m1 _ hw2 (isUpper_not_space m1 hm1)]
  rw [Option.some_bind]
  simp [chompUpper3, chomp, hm1, hm2, hm3]

theorem altVerb_of_bodyVerb (cs : List Char) (h : BodyVerb cs) : altVerb cs = true := by
  obtain ⟨w, v, tail, hwne, hw, hv, hcs⟩ := h
  have hvs : isSpace v = false := by
    rcases hv with rfl | rfl | rfl | rfl | rfl <;> decide
  unfold altVerb
  rw [hcs, chompSpaces_append_cons w v tail hwne hw hvs, Option.some_bind]
  have hch : chomp (fun c => c = 'H' || c = 'S' || c = 'R' || c = 'D' || c = 'C')
      (v :: tail) = some tail := by
    rcases hv with rfl | rfl | rfl | rfl | rfl <;> rfl
  rw [hch]
  rfl

theorem dropOptQuote_inv (cs r : List Char) (h : dropOptQuote cs = r) :
    cs = r ∨ ∃ q : Char, (q = quoteD ∨ q = quoteS) ∧ cs = q :: r := by
  cases cs with
  | nil => left; exact h ▸ rfl
  | cons c rest =>
    by_cases h1 : c = quoteD
    · right
      refine ⟨c, Or.inl h1, ?_⟩
      have hr : rest = r := by simpa [dropOptQuote, h1] using h
      rw [hr]
    · by_cases h2 : c = quoteS
      · right
        refine ⟨c, Or.inr h2, ?_⟩
        have hr : rest = r := by simpa [dropOptQuote, h1, h2] using h
        rw [hr]
      · left
        simpa [dropOptQuote, h1, h2] using h

theorem matchesOrderPattern_eq (s : String) :
    matchesOrderPattern s = true ↔
    ∃ body, ((chomp (fun c => c = 'A' || c = 'F') (dropOptQuote s.data)).bind
        chompSpaces).bind chompUpper3 = some body ∧
      (altMove body || altVerb body || altSupport body) = true := by
  unfold matchesOrderPattern
  cases hE : ((chomp (fun c => c = 'A' || c = 'F') (dropOptQuote s.data)).bind
      chompSpaces).bind chompUpper3 with
  | none => simp
  | some body => simp

/-! ### Claim C7 -/

/-- C7 counterexample: the grammar matcher rejects a build order, a
lowercase hold order, and an order whose unit location carries a coast
suffix — refuting the claimed build-verb support, case-insensitive
keyword matching and optional coast suffix. -/
theorem C7_counterexample_grammar_gaps :
    matchesOrderPattern "Build A PAR" = false ∧
    matchesOrderPattern "a par h" = false ∧
    matchesOrderPattern "F STP/NC - BAR" = false := by
  decide

/-- C7 (amended): the matcher accepts exactly the candidates described
by `OrderCandidate` — an optional leading quote, the unit type `A` or
`F` case-sensitively, whitespace, an exactly-three-uppercase-letter
location with no coast suffix, then either a dash-move body (whose
three-uppercase-letter destination may carry trailing text such as a
coast suffix) or whitespace plus one uppercase letter among `H`, `S`,
`R`, `D`, `C` followed by anything, which admits full hold, support,
convoy, retreat and disband bodies; consequently no build verb and no
lowercase keyword is accepted, since neither fits that shape.
Candidates that do not match are dropped silently by the extraction
walk: every extracted candidate is a stripped input item that matched,
and non-matching items simply do not appear, with no error. -/
theorem C7_amended_matcher_characterization :
    (∀ s : String, matchesOrderPattern s = true ↔ OrderCandidate s) ∧
    (∀ (items : List String) (y : String), y ∈ extractFlat items →
      matchesOrderPattern y = true ∧ y ∈ items.map pyStrip) := by
  constructor
  · intro s
    constructor
    · intro h
      obtain ⟨body, hE, halts⟩ := (matchesOrderPattern_eq s).mp h
      obtain ⟨r3, hr3E, hupper⟩ := Option.bind_eq_some.mp hE
      obtain ⟨r2, hchomp1, hspaces⟩ := Option.bind_eq_some.mp hr3E
      obtain ⟨u, hdq, hu⟩ := chomp_some _ _ _ hchomp1
      obtain ⟨w, hwne, hwsp, hr2⟩ := chompSpaces_some _ _ hspaces
      obtain ⟨l1, l2, l3, hl1, hl2, hl3, hr3⟩ := chompUpper3_some _ _ hupper
      have hbody : BodyMove body ∨ BodyVerb body := by
        simp only [Bool.or_eq_true] at halts
        rcases halts with (hm | hv) | hs
        · exact Or.inl (bodyMove_of_altMove body hm)
        · exact Or.inr (bodyVerb_of_altVerb body hv)
        · exact Or.inr (bodyVerb_of_altVerb body (altVerb_of_altSupport body hs))
      refine ⟨u, w, l1, l2, l3, body, ?_, hwne, hwsp, hl1, hl2, hl3, hbody, ?_⟩
      · rw [Bool.or_eq_true] at hu
        rcases hu with h1 | h1
        · exact Or.inl (of_decide_eq_true h1)
        · exact Or.inr (of_decide_eq_true h1)
      · have hdq' : dropOptQuote s.data = u :: (w ++ l1 :: l2 :: l3 :: body) := by
          rw [hdq, hr2, hr3]
        rcases dropOptQuote_inv _ _ hdq' with hcase | ⟨q, hq, hcase⟩
        · exact Or.inl hcase
        · exact Or.inr ⟨q, hq, hcase⟩
    · intro h
      obtain ⟨u, w, l1, l2, l3, body, hu, hwne, hwsp, hl1, hl2, hl3, hbody, hdata⟩ := h
      apply (matchesOrderPattern_eq s).mpr
      refine ⟨body, ?_, ?_⟩
      · have hdq : dropOptQuote s.data = u :: (w ++ l1 :: l2 :: l3 :: body) := by
          rcases hdata with hcase | ⟨q, hq, hcase⟩
          · rw [hcase]
            rcases hu with rfl | rfl <;> rfl
          · rw [hcase]
            rcases hq with rfl | rfl <;> rfl
        rw [hdq]
        have hchomp : chomp (fun c => c = 'A' || c = 'F')
            (u :: (w ++ l1 :: l2 :: l3 :: body)) = some (w ++ l1 :: l2 :: l3 :: body) := by
          rcases hu with rfl | rfl <;> rfl
        rw [hchomp, Option.some_bind]
        rw [chompSpaces_append_cons w l1 _ hwne hwsp (isUpper_not_space l1 hl1)]
        rw [Option.some_bind]
        simp [chompUpper3, chomp, hl1, hl2, hl3]
      · rcases hbody with hM | hV
        · have hm := altMove_of_bodyMove body hM
          simp [hm]
        · have hv := altVerb_of_bodyVerb body hV
          simp [hv]
  · intro items y hy
    unfold extractFlat at hy
    have hmem := List.mem_filter.mp hy
    exact ⟨hmem.2, hmem.1⟩

/-- Witness for the amended C7 theorem: a concrete move order is
accepted by the matcher and satisfies the declarative grammar. -/
theorem C7_amended_witness :
    matchesOrderPattern "A PAR - BUR" = true ∧ OrderCandidate "A PAR - BUR" :=
  ⟨by decide, (C7_amended_matcher_characterization.1 "A PAR - BUR").mp (by decide)⟩

/-! ### Claim C8 -/

/-- C8 counterexample: `"NARNIA"` is not a known participant, yet the
message validation accepts a message addressed to it unchanged and a
message is sent to `"NARNIA"` — the unknown recipient is not dropped and
the message is not rejected. -/
theorem C8_counterexample_unknown_recipient_kept :
    "NARNIA" ∉ otherPowers "FRANCE" ∧
    "NARNIA" ∉ knownPowers ∧
    get_ollama_message_core ["NARNIA"] "hi" = some (["NARNIA"], "hi") ∧
    sentMessages (get_ollama_message_core ["NARNIA"] "hi") = [("NARNIA", "hi")] := by
  decide

/-- C8 (amended): message validation performs no recipient check against
the known participants — any non-empty recipients sequence together with
a non-blank body is accepted unchanged, and one message is sent to every
listed recipient string, known or unknown; only an empty recipients
sequence or a blank body rejects the message as silent. -/
theorem C8_amended_recipients_not_validated (recipients : List String) (msg : String)
    (hr : recipients ≠ []) (hm : pyStrip msg ≠ "") :
    get_ollama_message_core recipients msg = some (recipients, pyStrip msg) ∧
    sentMessages (get_ollama_message_core recipients msg)
      = recipients.map (fun r => (r, pyStrip msg)) := by
  have hcore : get_ollama_message_core recipients msg = some (recipients, pyStrip msg) := by
    simp [get_ollama_message_core, hr, hm]
  refine ⟨hcore, ?_⟩
  rw [hcore]
  rfl

/-- Witness for the amended C8 theorem at a concrete accepted message. -/
theorem C8_amended_witness :
    get_ollama_message_core ["GERMANY"] " hello " = some (["GERMANY"], pyStrip " hello ") ∧
    sentMessages (get_ollama_message_core ["GERMANY"] " hello ")
      = (["GERMANY"] : List String).map (fun r => (r, pyStrip " hello ")) :=
  C8_amended_recipients_not_validated ["GERMANY"] " hello " (by decide) (by decide)

/-! ### Claim C9 -/

/-- C9: the message-validation core rejects as silent — result `none`,
no message recorded or sent — the empty-object input (which arrives as
default recipients `[]` and default body `""`), every input whose body is
blank after trimming (in particular an absent body), and every input
whose recipients sequence is empty; in each case nothing is handed to
the send loop. -/
theorem C9_silent_rejection :
    get_ollama_message_core [] "" = none ∧
    (∀ recipients msg, pyStrip msg = "" →
      get_ollama_message_core recipients msg = none ∧
      sentMessages (get_ollama_message_core recipients msg) = []) ∧
    (∀ msg : String, get_ollama_message_core [] msg = none ∧
      sentMessages (get_ollama_message_core [] msg) = []) := by
  refine ⟨by decide, ?_, ?_⟩
  · intro recipients msg hm
    have hcore : get_ollama_message_core recipients msg = none := by
      simp [get_ollama_message_core, hm]
    refine ⟨hcore, ?_⟩
    rw [hcore]
    rfl
  · intro msg
    have hcore : get_ollama_message_core [] msg = none := by
      simp [get_ollama_message_core]
    refine ⟨hcore, ?_⟩
    rw [hcore]
    rfl

/-- Witness for the C9 theorem: a whitespace-only body with a non-empty
recipient list is rejected and nothing is sent. -/
theorem C9_silent_rejection_witness :
    pyStrip "   " = "" ∧
    (get_ollama_message_core ["FRANCE"] "   " = none ∧
      sentMessages (get_ollama_message_core ["FRANCE"] "   ") = []) :=
  ⟨by decide, C9_silent_rejection.2.1 ["FRANCE"] "   " (by decide)⟩

/-! ### Claim C10 -/

/-- C10: for every game state and power (modelled by the orderable
locations and the legal-option mapping the engine supplies) and every
order list, `filter_to_legal` returns an order-preserving subsequence of
its input, and it is idempotent: filtering its own output again with the
same game state and power returns that output unchanged. -/
theorem C10_filter_to_legal_sublist_idempotent (locs : List String)
    (opts : String → List String) (orders : List String) :
    (filter_to_legal locs opts orders).Sublist orders ∧
    filter_to_legal locs opts (filter_to_legal locs opts orders)
      = filter_to_legal locs opts orders := by
  constructor
  · exact List.filter_sublist orders
  · exact filter_idem _ orders
